import Mathlib

/-!
Verification of the event-driven order workflow repository.

This file shallowly embeds the two core modules:
  * `src/services/worker/handler.ts` — the SQS batch consumer with the
    DynamoDB-backed idempotency guard and partial batch response;
  * `src/scripts/replay-dlq.ts` — the DLQ drain/replay tool.

JavaScript/TypeScript values are modelled as follows: strings are `String`,
optional / possibly-`undefined` fields are `Option`, JS truthiness of a
string value (`!s` is true for `undefined` and for the empty string) is the
boolean `truthyS`. The SQS record body is a string that the code first
checks for emptiness and then runs through `JSON.parse`; we model the body
by the three classes the code distinguishes: empty/missing, JSON-invalid,
or parsed to an envelope-shaped object. The DynamoDB table is modelled as
an explicit list of records threaded through the handler; transport
availability of the store and of the SQS send/delete calls is modelled by
boolean oracles indexed by call position, so that thrown SDK errors are
explicit. Thrown JS exceptions are `Except` errors.
-/

/-- JS truthiness of a possibly-undefined string: `!x` is true exactly when
the field is absent or the empty string. -/
def truthyS : Option String → Bool
  | none => false
  | some s => !s.isEmpty

/-- `OrderItem` as the worker sees it after the unchecked cast of the parsed
JSON: each field may in fact be absent. -/
structure RawItem where
  sku : Option String
  qty : Option Int
deriving DecidableEq, Repr

/-- `OrderCreatedDetail` as the worker sees it after the unchecked cast:
every field may in fact be absent, since `parseEventBridgeEnvelope` never
inspects the detail's fields. -/
structure RawDetail where
  schemaVersion : Option String
  eventId : Option String
  orderId : Option String
  createdAt : Option String
  customerId : Option String
  items : Option (List RawItem)
deriving DecidableEq, Repr

/-- `EventBridgeEnvelope`: `id`, `source`, `'detail-type'`, `detail`. The
detail, when present, is an object whose fields are not yet validated. -/
structure RawEnvelope where
  id : Option String
  source : Option String
  detailType : Option String
  detail : Option RawDetail
deriving DecidableEq, Repr

/-- The SQS record body as the three classes `parseEventBridgeEnvelope`
distinguishes: absent/empty string, a string `JSON.parse` rejects, or a
string parsing to an object with the modelled fields. -/
inductive Body where
  | empty
  | invalidJson
  | json (env : RawEnvelope)
deriving DecidableEq, Repr

/-- An SQS record: `messageId` (used as the batch-failure identifier) and
the raw body. -/
structure SQSRecord where
  messageId : String
  body : Body
deriving DecidableEq, Repr

/-- The three `throw` sites of `parseEventBridgeEnvelope`. -/
inductive ParseError where
  | emptyBody
  | invalidJson
  | notEnvelope
deriving DecidableEq, Repr

/-- `parseEventBridgeEnvelope` (handler.ts lines 44-61): throws on an empty
body, on JSON-parse failure, and when any of `detail`, `detail-type`,
`source` is falsy; otherwise returns the envelope via an unchecked cast —
no field of `detail` is inspected. -/
def parseEventBridgeEnvelope (r : SQSRecord) : Except ParseError RawEnvelope :=
  match r.body with
  | .empty => .error .emptyBody
  | .invalidJson => .error .invalidJson
  | .json env =>
    if env.detail.isSome && truthyS env.detailType && truthyS env.source then
      .ok env
    else
      .error .notEnvelope

/-- The DynamoDB item written by `recordIdempotency`: exactly the four
attributes `eventId`, `orderId`, `createdAt`, `expiresAt`. -/
structure IdempotencyRecord where
  eventId : String
  orderId : String
  createdAt : String
  expiresAt : Nat
deriving DecidableEq, Repr

/-- The idempotency table, modelled as the list of its records. -/
abbrev Store := List IdempotencyRecord

/-- `attribute_not_exists(eventId)` evaluated against the table state. -/
def storeHas (s : Store) (e : String) : Bool :=
  s.any (fun rec => rec.eventId == e)

/-- Number of records in the table keyed by a given `eventId`. -/
def countEvent (s : Store) (e : String) : Nat :=
  (s.filter (fun rec => rec.eventId == e)).length

/-- Worker environment: whether `TABLE_NAME` is set, and the parsed
`TTL_DAYS` variable (`none` models unset or empty, which the source
replaces by the literal `'7'` before parsing). -/
structure WorkerConfig where
  tableConfigured : Bool
  ttlEnv : Option Nat
deriving DecidableEq, Repr

/-- `TTL_DAYS = parseInt(process.env.TTL_DAYS || '7', 10)` for a
well-formed numeric (or absent) environment value. -/
def TTL_DAYS (env : Option Nat) : Nat :=
  match env with
  | none => 7
  | some n => n

/-- Result of a successful idempotency claim. -/
inductive ClaimStatus where
  | new
  | duplicate
deriving DecidableEq, Repr

/-- Errors a worker step can throw (beyond parse errors): missing
`TABLE_NAME`, a `PutItem` whose required string attributes are absent
(rejected client-side by the SDK marshaller), and a store transport
failure. -/
inductive WorkerError where
  | tableNotConfigured
  | missingAttr
  | storeUnavailable
deriving DecidableEq, Repr

/-- `recordIdempotency` (handler.ts lines 63-91): throws when `TABLE_NAME`
is unset; builds the item `{eventId, orderId, createdAt, expiresAt}` with
`expiresAt = nowSeconds + TTL_DAYS*24*60*60`; sends a conditional
`PutItem` with `attribute_not_exists(eventId)`. A
`ConditionalCheckFailedException` is mapped to `'duplicate'`; success to
`'new'`; every other error (modelled by the `avail` flag for this call
being false) is rethrown. `now` is the already-floored wall clock in whole
seconds. -/
def recordIdempotency (cfg : WorkerConfig) (now : Nat) (avail : Bool)
    (store : Store) (d : RawDetail) : Except WorkerError (ClaimStatus × Store) :=
  if cfg.tableConfigured = false then
    .error .tableNotConfigured
  else
    match d.eventId, d.orderId, d.createdAt with
    | some e, some o, some c =>
      if avail = false then
        .error .storeUnavailable
      else if storeHas store e then
        .ok (.duplicate, store)
      else
        .ok (.new, ⟨e, o, c, now + TTL_DAYS cfg.ttlEnv * (24 * 60 * 60)⟩ :: store)
    | _, _, _ => .error .missingAttr

/-- The two ways `processOrder` can throw: `detail.items` is absent (the
`.some` call on `undefined` raises a TypeError), or the fault-injection
sentinel is present. -/
inductive ProcessError where
  | itemsMissing
  | failSku
deriving DecidableEq, Repr

/-- `items.some((item) => item.sku === 'FAIL-ME')`. -/
def hasFailSku (items : List RawItem) : Bool :=
  items.any (fun it => it.sku == some "FAIL-ME")

/-- `processOrder` (handler.ts lines 93-111): throws when any item's `sku`
equals the sentinel `FAIL-ME`; otherwise logs and returns. Pure in the
event content. -/
def processOrder (d : RawDetail) : Except ProcessError Unit :=
  match d.items with
  | none => .error .itemsMissing
  | some items =>
    if hasFailSku items then .error .failSku else .ok ()

/-- Per-invocation handler state: the accumulated `batchItemFailures`
identifiers, the threaded table state, and an observation trace of the
details for which `processOrder` was invoked. -/
structure BatchState where
  store : Store
  failures : List String
  businessCalls : List RawDetail
deriving DecidableEq, Repr

/-- One iteration of the handler's `for (const record of event.Records)`
loop (handler.ts lines 116-161): parse, claim, on `'duplicate'` `continue`,
on `'new'` invoke `processOrder`; any thrown error pushes
`record.messageId` onto `batchItemFailures`. -/
def processRecord (cfg : WorkerConfig) (now : Nat) (avail : Bool)
    (st : BatchState) (r : SQSRecord) : BatchState :=
  match parseEventBridgeEnvelope r with
  | .error _ => { st with failures := st.failures ++ [r.messageId] }
  | .ok env =>
    match env.detail with
    | none => { st with failures := st.failures ++ [r.messageId] }
    | some d =>
      match recordIdempotency cfg now avail st.store d with
      | .error _ => { st with failures := st.failures ++ [r.messageId] }
      | .ok (.duplicate, s) => { st with store := s }
      | .ok (.new, s) =>
        match processOrder d with
        | .ok _ =>
          { st with store := s, businessCalls := st.businessCalls ++ [d] }
        | .error _ =>
          { st with store := s, businessCalls := st.businessCalls ++ [d],
                    failures := st.failures ++ [r.messageId] }

/-- The handler loop over the remaining records; `i` indexes the record
position so the store-availability oracle can vary per call. -/
def handlerGo (cfg : WorkerConfig) (now : Nat) (avail : Nat → Bool) :
    Nat → BatchState → List SQSRecord → BatchState
  | _, st, [] => st
  | i, st, r :: rs =>
    handlerGo cfg now avail (i + 1) (processRecord cfg now (avail i) st r) rs

/-- `handler` (handler.ts lines 113-164): processes the batch in order
starting from empty `batchItemFailures` and the given table state, and
returns the final state (whose `failures` component is the
`batchItemFailures` of the `SQSBatchResponse`). -/
def handler (cfg : WorkerConfig) (now : Nat) (avail : Nat → Bool)
    (store : Store) (records : List SQSRecord) : BatchState :=
  handlerGo cfg now avail 0 ⟨store, [], []⟩ records

/-- Per-envelope outcome classification used to state the batch-response
property. -/
inductive Outcome where
  | success
  | duplicate
  | failed
deriving DecidableEq, Repr

/-- Classification of a single record against a given table state: which
outcome the handler's loop body assigns it and the table state it leaves
behind. -/
def classifyRecord (cfg : WorkerConfig) (now : Nat) (avail : Bool)
    (store : Store) (r : SQSRecord) : Outcome × Store :=
  match parseEventBridgeEnvelope r with
  | .error _ => (.failed, store)
  | .ok env =>
    match env.detail with
    | none => (.failed, store)
    | some d =>
      match recordIdempotency cfg now avail store d with
      | .error _ => (.failed, store)
      | .ok (.duplicate, s) => (.duplicate, s)
      | .ok (.new, s) =>
        match processOrder d with
        | .ok _ => (.success, s)
        | .error _ => (.failed, s)

/-- Classify every record of a batch, threading the table state. -/
def classifyBatch (cfg : WorkerConfig) (now : Nat) (avail : Nat → Bool) :
    Nat → Store → List SQSRecord → List (String × Outcome)
  | _, _, [] => []
  | i, store, r :: rs =>
    (r.messageId, (classifyRecord cfg now (avail i) store r).1) ::
      classifyBatch cfg now avail (i + 1)
        (classifyRecord cfg now (avail i) store r).2 rs

/-- Identifiers of the records classified `failed`. -/
def failedIds (l : List (String × Outcome)) : List String :=
  l.filterMap (fun p => if p.2 = Outcome.failed then some p.1 else none)

/-!
## Replay tool (`src/scripts/replay-dlq.ts`)
-/

/-- An SQS `Message` as received by the replay tool: every field the code
touches may be absent. -/
structure Message where
  messageId : Option String
  receiptHandle : Option String
  body : Option String
deriving DecidableEq, Repr

/-- The skip check `if (!msg.Body || !msg.ReceiptHandle || !msg.MessageId)
continue` (replay-dlq.ts line 40), with JS truthiness. -/
def msgComplete (m : Message) : Bool :=
  truthyS m.body && truthyS m.receiptHandle && truthyS m.messageId

/-- State of the per-message forward loop: `processedCount`, the bodies
sent to the main queue, and the `toDelete` list. -/
structure ForwardState where
  processedCount : Nat
  sent : List String
  toDelete : List Message
deriving DecidableEq, Repr

/-- The `for (const msg of messages)` loop (replay-dlq.ts lines 39-58):
skip incomplete messages; send the body to the main queue; only on send
success (`sendOk i` for the i-th received message) increment the count and
queue the message for deletion; a send failure is logged and the message is
left alone. -/
def forwardLoop (sendOk : Nat → Bool) :
    Nat → ForwardState → List Message → ForwardState
  | _, st, [] => st
  | i, st, m :: ms =>
    if msgComplete m = false then
      forwardLoop sendOk (i + 1) st ms
    else if sendOk i then
      forwardLoop sendOk (i + 1)
        ⟨st.processedCount + 1, st.sent ++ [m.body.getD ""], st.toDelete ++ [m]⟩ ms
    else
      forwardLoop sendOk (i + 1) st ms

/-- Specification-level description of the forwarded messages: the
received messages, in order, that are complete and whose send succeeded. -/
def forwardedFrom (sendOk : Nat → Bool) : Nat → List Message → List Message
  | _, [] => []
  | i, m :: ms =>
    if msgComplete m && sendOk i then
      m :: forwardedFrom sendOk (i + 1) ms
    else
      forwardedFrom sendOk (i + 1) ms

/-- Specification-level predicate: every received message is either
incomplete (skipped) or its forward fails. -/
def noneForwardable (sendOk : Nat → Bool) : Nat → List Message → Bool
  | _, [] => true
  | i, m :: ms =>
    (!(msgComplete m) || !(sendOk i)) && noneForwardable sendOk (i + 1) ms

/-- `MessageId`s of the batch-delete entries the store confirmed deleted
(the j-th entry succeeds when `deleteOk j`). -/
def okDeleteIds (deleteOk : Nat → Bool) : Nat → List Message → List (Option String)
  | _, [] => []
  | j, m :: ms =>
    if deleteOk j then
      m.messageId :: okDeleteIds deleteOk (j + 1) ms
    else
      okDeleteIds deleteOk (j + 1) ms

/-- Number of batch-delete entries reported in the response's `Failed`
list. -/
def failedDeleteCount (deleteOk : Nat → Bool) : Nat → List Message → Nat
  | _, [] => 0
  | j, _ :: ms =>
    (if deleteOk j then 0 else 1) + failedDeleteCount deleteOk (j + 1) ms

/-- Result of one `replayOnce` pass: the returned count, the observation
traces, the DLQ state afterwards, and whether the partial-delete warning
was printed. -/
structure ReplayOnceResult where
  processedCount : Nat
  sent : List String
  toDelete : List Message
  dlqAfter : List Message
  failedDeletes : Nat
  warned : Bool
deriving DecidableEq, Repr

/-- `replayOnce` (replay-dlq.ts lines 21-80): receive a batch (modelled as
the given `received` list drawn from the DLQ `dlq`); return 0 immediately
when it is empty; otherwise forward each message, then — only when
`toDelete` is non-empty — issue one `DeleteMessageBatch` whose confirmed
entries are removed from the DLQ, printing a warning when the response
lists failed entries (no retry). Returns `processedCount`. -/
def replayOnce (sendOk deleteOk : Nat → Bool) (dlq received : List Message) :
    ReplayOnceResult :=
  if received.length = 0 then
    ⟨0, [], [], dlq, 0, false⟩
  else
    let st := forwardLoop sendOk 0 ⟨0, [], []⟩ received
    if st.toDelete.length > 0 then
      let okIds := okDeleteIds deleteOk 0 st.toDelete
      let failed := failedDeleteCount deleteOk 0 st.toDelete
      ⟨st.processedCount, st.sent, st.toDelete,
        dlq.filter (fun m => !(okIds.contains m.messageId)), failed, failed != 0⟩
    else
      ⟨st.processedCount, st.sent, st.toDelete, dlq, 0, false⟩

/-- The loop exit test `if (replayed === 0) break` (replay-dlq.ts line 91). -/
def loopBreaks (replayed : Nat) : Bool :=
  replayed == 0

/-- The drain loop of `main` (replay-dlq.ts lines 89-96), with `iter i` the
`replayOnce` count of iteration `i` and explicit fuel: returns
`some total` when some iteration within the fuel replays zero messages,
`none` when the fuel runs out first. -/
def drainLoop (iter : Nat → Nat) : Nat → Nat → Nat → Option Nat
  | 0, _, _ => none
  | fuel + 1, i, total =>
    if iter i = 0 then
      some total
    else
      drainLoop iter fuel (i + 1) (total + iter i)

/-!
## Concrete fixtures
-/

/-- A well-formed item. -/
def goodItem : RawItem := ⟨some "SKU-1", some 2⟩

/-- The fault-injection item. -/
def failItem : RawItem := ⟨some "FAIL-ME", some 1⟩

/-- A fully valid `OrderCreated` detail. -/
def goodDetail : RawDetail :=
  ⟨some "1.0", some "e1", some "o1", some "2024-01-01T00:00:00Z", none, some [goodItem]⟩

/-- A valid detail whose items contain the fault-injection sentinel. -/
def failDetail : RawDetail :=
  ⟨some "1.0", some "e2", some "o2", some "2024-01-01T00:00:00Z", none, some [failItem]⟩

/-- A detail with every field absent: the parsed JSON object `\x7b\x7d`. -/
def emptyDetail : RawDetail := ⟨none, none, none, none, none, none⟩

/-- Wrap a detail in a routed envelope. -/
def envOf (d : RawDetail) : RawEnvelope :=
  ⟨some "env-1", some "myapp.orders", some "OrderCreated", some d⟩

/-- Wrap a detail in an SQS record with the given message id. -/
def recOf (mid : String) (d : RawDetail) : SQSRecord :=
  ⟨mid, .json (envOf d)⟩

/-- A worker environment with `TABLE_NAME` set and `TTL_DAYS` unset. -/
def cfgOk : WorkerConfig := ⟨true, none⟩

/-- A complete DLQ message. -/
def dlqMsgA : Message := ⟨some "mid-A", some "rh-A", some "body-A"⟩

/-- A second complete DLQ message. -/
def dlqMsgB : Message := ⟨some "mid-B", some "rh-B", some "body-B"⟩

/-- A DLQ message with no `Body`, which the replay tool skips. -/
def noBodyMsg : Message := ⟨some "mid-C", some "rh-C", none⟩

/-!
## Helper lemmas
-/

lemma storeHas_cons (x : IdempotencyRecord) (s : Store) (e : String) :
    storeHas (x :: s) e = ((x.eventId == e) || storeHas s e) := by
  simp [storeHas]

lemma countEvent_cons (x : IdempotencyRecord) (s : Store) (e : String) :
    countEvent (x :: s) e =
      (if x.eventId == e then 1 else 0) + countEvent s e := by
  by_cases h : x.eventId == e <;> simp [countEvent, List.filter_cons, h, Nat.add_comm]

lemma countEvent_zero (s : Store) (e : String) (h : storeHas s e = false) :
    countEvent s e = 0 := by
  induction s with
  | nil => rfl
  | cons x xs ih =>
    rw [storeHas_cons, Bool.or_eq_false_iff] at h
    rw [countEvent_cons, h.1, ih h.2]
    simp

lemma recordIdempotency_new (cfg : WorkerConfig) (now : Nat) (store : Store)
    (d : RawDetail) (e o c : String)
    (hcfg : cfg.tableConfigured = true)
    (he : d.eventId = some e) (ho : d.orderId = some o) (hc : d.createdAt = some c)
    (hnew : storeHas store e = false) :
    recordIdempotency cfg now true store d =
      .ok (.new, ⟨e, o, c, now + TTL_DAYS cfg.ttlEnv * (24 * 60 * 60)⟩ :: store) := by
  simp [recordIdempotency, hcfg, he, ho, hc, hnew]

lemma recordIdempotency_dup (cfg : WorkerConfig) (now : Nat) (store : Store)
    (d : RawDetail) (e o c : String)
    (hcfg : cfg.tableConfigured = true)
    (he : d.eventId = some e) (ho : d.orderId = some o) (hc : d.createdAt = some c)
    (hdup : storeHas store e = true) :
    recordIdempotency cfg now true store d = .ok (.duplicate, store) := by
  simp [recordIdempotency, hcfg, he, ho, hc, hdup]

lemma recordIdempotency_unavail (cfg : WorkerConfig) (now : Nat) (store : Store)
    (d : RawDetail) (e o c : String)
    (hcfg : cfg.tableConfigured = true)
    (he : d.eventId = some e) (ho : d.orderId = some o) (hc : d.createdAt = some c) :
    recordIdempotency cfg now false store d = .error .storeUnavailable := by
  simp [recordIdempotency, hcfg, he, ho, hc]

lemma handler_singleton (cfg : WorkerConfig) (now : Nat) (avail : Nat → Bool)
    (store : Store) (r : SQSRecord) :
    handler cfg now avail store [r] =
      processRecord cfg now (avail 0) ⟨store, [], []⟩ r := rfl

/-!
## Claim theorems
-/

/-- C4, counterexample: a delivered record whose `detail` is the empty JSON
object — no `eventId`, no `orderId`, no `createdAt`, no `items` — is
accepted by `parseEventBridgeEnvelope`, contradicting the claim that
parsing fails unless the detail deserializes into an Order Event with all
required fields. -/
theorem C4_counterexample_parse_accepts_empty_detail :
    parseEventBridgeEnvelope (recOf "mBad" emptyDetail) = .ok (envOf emptyDetail) ∧
    emptyDetail.eventId = none ∧ emptyDetail.orderId = none ∧
    emptyDetail.createdAt = none ∧ emptyDetail.items = none :=
  ⟨rfl, rfl, rfl, rfl, rfl⟩

/-- C4, amended: envelope parsing succeeds exactly when the raw payload is
non-empty, deserializes as JSON, and the resulting object carries a truthy
`source`, `detail-type` and `detail`; it performs no validation of the
Order Event fields inside `detail` (missing detail fields surface later as
processing-time failures, not parse failures). Parsing is a pure function
of the record. -/
theorem C4_parse_validates_envelope_shape_only (r : SQSRecord) (env : RawEnvelope) :
    parseEventBridgeEnvelope r = .ok env ↔
      r.body = .json env ∧ env.detail.isSome = true ∧
      truthyS env.detailType = true ∧ truthyS env.source = true := by
  cases hb : r.body with
  | empty => simp [parseEventBridgeEnvelope, hb]
  | invalidJson => simp [parseEventBridgeEnvelope, hb]
  | json e =>
    simp only [parseEventBridgeEnvelope, hb]
    split
    next hcond =>
      rw [Bool.and_eq_true, Bool.and_eq_true] at hcond
      constructor
      · intro h
        injection h with h
        subst h
        exact ⟨rfl, hcond.1.1, hcond.1.2, hcond.2⟩
      · rintro ⟨hj, _, _, _⟩
        injection hj with hj
        subst hj
        rfl
    next hcond =>
      constructor
      · intro h
        simp at h
      · rintro ⟨hj, h1, h2, h3⟩
        injection hj with hj
        subst hj
        rw [h1, h2, h3] at hcond
        simp at hcond

/-- C5: when the idempotency store is unavailable (any error other than the
conditional-check rejection), the claim call rethrows `StoreUnavailable` —
it is never interpreted as `new` or `duplicate` — business processing is
not invoked for that envelope, the envelope's identifier is reported in
`batchItemFailures`, and the table state is unchanged, so the claim will
be re-attempted on redelivery. -/
theorem C5_store_unavailable_fails_envelope (cfg : WorkerConfig) (now : Nat)
    (store : Store) (r : SQSRecord) (env : RawEnvelope) (d : RawDetail) (e o c : String)
    (hcfg : cfg.tableConfigured = true)
    (hp : parseEventBridgeEnvelope r = .ok env)
    (hd : env.detail = some d)
    (he : d.eventId = some e) (ho : d.orderId = some o) (hc : d.createdAt = some c) :
    recordIdempotency cfg now false store d = .error .storeUnavailable ∧
    (handler cfg now (fun _ => false) store [r]).businessCalls = [] ∧
    (handler cfg now (fun _ => false) store [r]).failures = [r.messageId] ∧
    (handler cfg now (fun _ => false) store [r]).store = store := by
  have hu := recordIdempotency_unavail cfg now store d e o c hcfg he ho hc
  refine ⟨hu, ?_, ?_, ?_⟩ <;>
  · rw [handler_singleton]
    simp [processRecord, hp, hd, hu]

/-- Witness for C5: a store outage on a concrete valid envelope. -/
theorem C5_witness :
    recordIdempotency cfgOk 1000 false [] goodDetail = .error .storeUnavailable ∧
    (handler cfgOk 1000 (fun _ => false) [] [recOf "m1" goodDetail]).businessCalls = [] ∧
    (handler cfgOk 1000 (fun _ => false) [] [recOf "m1" goodDetail]).failures = ["m1"] := by
  have h := C5_store_unavailable_fails_envelope cfgOk 1000 [] (recOf "m1" goodDetail)
    (envOf goodDetail) goodDetail "e1" "o1" "2024-01-01T00:00:00Z" rfl rfl rfl rfl rfl rfl
  exact ⟨h.1, h.2.1, h.2.2.1⟩

/-- C6: business processing is a pure function of the event content and
fails exactly when some item's `sku` is the sentinel `FAIL-ME`; under a
fresh claim, an event with the sentinel is reported failed and an event
without it is acknowledged (not in the failure set). -/
theorem C6_fail_me_sentinel (cfg : WorkerConfig) (now : Nat) (store : Store)
    (r : SQSRecord) (env : RawEnvelope) (d : RawDetail) (l : List RawItem)
    (e o c : String)
    (hcfg : cfg.tableConfigured = true)
    (hp : parseEventBridgeEnvelope r = .ok env)
    (hd : env.detail = some d)
    (he : d.eventId = some e) (ho : d.orderId = some o) (hc : d.createdAt = some c)
    (hl : d.items = some l)
    (hnew : storeHas store e = false) :
    (processOrder d = .error .failSku ↔ hasFailSku l = true) ∧
    (processOrder d = .ok () ↔ hasFailSku l = false) ∧
    (hasFailSku l = true →
      (handler cfg now (fun _ => true) store [r]).failures = [r.messageId]) ∧
    (hasFailSku l = false →
      (handler cfg now (fun _ => true) store [r]).failures = []) := by
  have hnewEq := recordIdempotency_new cfg now store d e o c hcfg he ho hc hnew
  by_cases hf : hasFailSku l = true
  · have hpo : processOrder d = .error .failSku := by simp [processOrder, hl, hf]
    refine ⟨by simp [hpo, hf], by simp [hpo, hf], ?_, by simp [hf]⟩
    intro _
    rw [handler_singleton]
    simp [processRecord, hp, hd, hnewEq, hpo]
  · rw [Bool.not_eq_true] at hf
    have hpo : processOrder d = .ok () := by simp [processOrder, hl, hf]
    refine ⟨by simp [hpo, hf], by simp [hpo, hf], by simp [hf], ?_⟩
    intro _
    rw [handler_singleton]
    simp [processRecord, hp, hd, hnewEq, hpo]

/-- Witness for C6: the fault-injection event is reported failed. -/
theorem C6_witness :
    processOrder failDetail = .error .failSku ∧
    (handler cfgOk 1000 (fun _ => true) [] [recOf "m2" failDetail]).failures = ["m2"] := by
  have h := C6_fail_me_sentinel cfgOk 1000 [] (recOf "m2" failDetail) (envOf failDetail)
    failDetail [failItem] "e2" "o2" "2024-01-01T00:00:00Z" rfl rfl rfl rfl rfl rfl rfl rfl
  exact ⟨h.1.mpr rfl, h.2.2.1 rfl⟩

/-- C9: a successful fresh claim inserts exactly the record
`{eventId, orderId, createdAt, expiresAt}` with the attribute values copied
from the event and `expiresAt = claim time + TTL_DAYS*24*60*60` seconds;
`TTL_DAYS` defaults to 7 when unset; and a later conditional insert for the
same `eventId` is rejected as a duplicate, leaving the record unchanged. -/
theorem C9_record_shape_and_ttl (cfg : WorkerConfig) (now : Nat) (store : Store)
    (d : RawDetail) (e o c : String)
    (hcfg : cfg.tableConfigured = true)
    (he : d.eventId = some e) (ho : d.orderId = some o) (hc : d.createdAt = some c)
    (hnew : storeHas store e = false) :
    recordIdempotency cfg now true store d =
      .ok (.new, ⟨e, o, c, now + TTL_DAYS cfg.ttlEnv * (24 * 60 * 60)⟩ :: store) ∧
    TTL_DAYS none = 7 ∧
    (∀ (d2 : RawDetail) (now2 : Nat) (o2 c2 : String),
      d2.eventId = some e → d2.orderId = some o2 → d2.createdAt = some c2 →
      recordIdempotency cfg now2 true
          (⟨e, o, c, now + TTL_DAYS cfg.ttlEnv * (24 * 60 * 60)⟩ :: store) d2 =
        .ok (.duplicate,
          ⟨e, o, c, now + TTL_DAYS cfg.ttlEnv * (24 * 60 * 60)⟩ :: store)) := by
  refine ⟨recordIdempotency_new cfg now store d e o c hcfg he ho hc hnew, rfl, ?_⟩
  intro d2 now2 o2 c2 he2 ho2 hc2
  apply recordIdempotency_dup cfg now2 _ d2 e o2 c2 hcfg he2 ho2 hc2
  rw [storeHas_cons]
  simp

/-- Witness for C9: a fresh claim at time 1000 with default TTL writes
`expiresAt = 1000 + 7*24*60*60`. -/
theorem C9_witness :
    recordIdempotency cfgOk 1000 true [] goodDetail =
      .ok (.new, [⟨"e1", "o1", "2024-01-01T00:00:00Z", 1000 + 7 * (24 * 60 * 60)⟩]) ∧
    TTL_DAYS none = 7 := by
  have h := C9_record_shape_and_ttl cfgOk 1000 [] goodDetail "e1" "o1"
    "2024-01-01T00:00:00Z" rfl rfl rfl rfl rfl
  exact ⟨h.1, h.2.1⟩

/-- C1: delivering the same `eventId` twice (redelivery of a valid envelope
whose first claim was fresh) invokes business processing exactly once and
writes exactly one idempotency record; the second delivery's claim returns
`duplicate`, business processing is not invoked again, the envelope is
excluded from `batchItemFailures`, and the table is unchanged. -/
theorem C1_duplicate_suppression (cfg : WorkerConfig) (now1 now2 : Nat) (store : Store)
    (r : SQSRecord) (env : RawEnvelope) (d : RawDetail) (e o c : String)
    (hcfg : cfg.tableConfigured = true)
    (hp : parseEventBridgeEnvelope r = .ok env)
    (hd : env.detail = some d)
    (he : d.eventId = some e) (ho : d.orderId = some o) (hc : d.createdAt = some c)
    (hnew : storeHas store e = false) :
    recordIdempotency cfg now2 true
        (handler cfg now1 (fun _ => true) store [r]).store d =
      .ok (.duplicate, (handler cfg now1 (fun _ => true) store [r]).store) ∧
    (handler cfg now1 (fun _ => true) store [r]).businessCalls = [d] ∧
    countEvent (handler cfg now1 (fun _ => true) store [r]).store e = 1 ∧
    (handler cfg now2 (fun _ => true)
        (handler cfg now1 (fun _ => true) store [r]).store [r]).businessCalls = [] ∧
    (handler cfg now2 (fun _ => true)
        (handler cfg now1 (fun _ => true) store [r]).store [r]).failures = [] ∧
    (handler cfg now2 (fun _ => true)
        (handler cfg now1 (fun _ => true) store [r]).store [r]).store =
      (handler cfg now1 (fun _ => true) store [r]).store := by
  have hnewEq := recordIdempotency_new cfg now1 store d e o c hcfg he ho hc hnew
  have hs1 : (handler cfg now1 (fun _ => true) store [r]).store =
        (⟨e, o, c, now1 + TTL_DAYS cfg.ttlEnv * (24 * 60 * 60)⟩ : IdempotencyRecord)
          :: store ∧
      (handler cfg now1 (fun _ => true) store [r]).businessCalls = [d] := by
    rw [handler_singleton]
    cases hpo : processOrder d with
    | ok u => simp [processRecord, hp, hd, hnewEq, hpo]
    | error pe => simp [processRecord, hp, hd, hnewEq, hpo]
  have hdup2 : recordIdempotency cfg now2 true
      ((⟨e, o, c, now1 + TTL_DAYS cfg.ttlEnv * (24 * 60 * 60)⟩ : IdempotencyRecord)
        :: store) d =
      .ok (.duplicate,
        (⟨e, o, c, now1 + TTL_DAYS cfg.ttlEnv * (24 * 60 * 60)⟩ : IdempotencyRecord)
          :: store) :=
    recordIdempotency_dup cfg now2 _ d e o c hcfg he ho hc
      (by rw [storeHas_cons]; simp)
  have hs2 : handler cfg now2 (fun _ => true)
      ((⟨e, o, c, now1 + TTL_DAYS cfg.ttlEnv * (24 * 60 * 60)⟩ : IdempotencyRecord)
        :: store) [r] =
      ⟨(⟨e, o, c, now1 + TTL_DAYS cfg.ttlEnv * (24 * 60 * 60)⟩ : IdempotencyRecord)
        :: store, [], []⟩ := by
    rw [handler_singleton]
    simp [processRecord, hp, hd, hdup2]
  rw [hs1.1, hs2]
  refine ⟨hdup2, hs1.2, ?_, rfl, rfl, rfl⟩
  rw [countEvent_cons]
  simp [countEvent_zero store e hnew]

/-- Witness for C1: the same valid envelope delivered in two successive
invocations; one business call, one record, second delivery fully acked. -/
theorem C1_witness :
    (handler cfgOk 1000 (fun _ => true) [] [recOf "m1" goodDetail]).businessCalls
      = [goodDetail] ∧
    countEvent (handler cfgOk 1000 (fun _ => true) [] [recOf "m1" goodDetail]).store "e1"
      = 1 ∧
    (handler cfgOk 2000 (fun _ => true)
        (handler cfgOk 1000 (fun _ => true) [] [recOf "m1" goodDetail]).store
        [recOf "m1" goodDetail]).businessCalls = [] ∧
    (handler cfgOk 2000 (fun _ => true)
        (handler cfgOk 1000 (fun _ => true) [] [recOf "m1" goodDetail]).store
        [recOf "m1" goodDetail]).failures = [] := by
  have h := C1_duplicate_suppression cfgOk 1000 2000 [] (recOf "m1" goodDetail)
    (envOf goodDetail) goodDetail "e1" "o1" "2024-01-01T00:00:00Z"
    rfl rfl rfl rfl rfl rfl rfl
  exact ⟨h.2.1, h.2.2.1, h.2.2.2.1, h.2.2.2.2.1⟩

/-- C2: the idempotency record is written before business processing runs
(claim-then-execute): when the claim is fresh but business processing
throws, the envelope is reported in `batchItemFailures` while the record
persists in the table; a redelivery of the same `eventId` is then
classified `duplicate` and acknowledged (empty failure set) without
business processing ever being invoked again. -/
theorem C2_claim_then_execute (cfg : WorkerConfig) (now1 now2 : Nat) (store : Store)
    (r : SQSRecord) (env : RawEnvelope) (d : RawDetail) (e o c : String)
    (perr : ProcessError)
    (hcfg : cfg.tableConfigured = true)
    (hp : parseEventBridgeEnvelope r = .ok env)
    (hd : env.detail = some d)
    (he : d.eventId = some e) (ho : d.orderId = some o) (hc : d.createdAt = some c)
    (hnew : storeHas store e = false)
    (hpo : processOrder d = .error perr) :
    (handler cfg now1 (fun _ => true) store [r]).failures = [r.messageId] ∧
    storeHas (handler cfg now1 (fun _ => true) store [r]).store e = true ∧
    recordIdempotency cfg now2 true
        (handler cfg now1 (fun _ => true) store [r]).store d =
      .ok (.duplicate, (handler cfg now1 (fun _ => true) store [r]).store) ∧
    (handler cfg now2 (fun _ => true)
        (handler cfg now1 (fun _ => true) store [r]).store [r]).failures = [] ∧
    (handler cfg now2 (fun _ => true)
        (handler cfg now1 (fun _ => true) store [r]).store [r]).businessCalls = [] := by
  have hnewEq := recordIdempotency_new cfg now1 store d e o c hcfg he ho hc hnew
  have hs1 : handler cfg now1 (fun _ => true) store [r] =
      ⟨(⟨e, o, c, now1 + TTL_DAYS cfg.ttlEnv * (24 * 60 * 60)⟩ : IdempotencyRecord)
        :: store, [r.messageId], [d]⟩ := by
    rw [handler_singleton]
    simp [processRecord, hp, hd, hnewEq, hpo]
  have hdup2 : recordIdempotency cfg now2 true
      ((⟨e, o, c, now1 + TTL_DAYS cfg.ttlEnv * (24 * 60 * 60)⟩ : IdempotencyRecord)
        :: store) d =
      .ok (.duplicate,
        (⟨e, o, c, now1 + TTL_DAYS cfg.ttlEnv * (24 * 60 * 60)⟩ : IdempotencyRecord)
          :: store) :=
    recordIdempotency_dup cfg now2 _ d e o c hcfg he ho hc
      (by rw [storeHas_cons]; simp)
  have hs2 : handler cfg now2 (fun _ => true)
      ((⟨e, o, c, now1 + TTL_DAYS cfg.ttlEnv * (24 * 60 * 60)⟩ : IdempotencyRecord)
        :: store) [r] =
      ⟨(⟨e, o, c, now1 + TTL_DAYS cfg.ttlEnv * (24 * 60 * 60)⟩ : IdempotencyRecord)
        :: store, [], []⟩ := by
    rw [handler_singleton]
    simp [processRecord, hp, hd, hdup2]
  rw [hs1, hs2]
  refine ⟨rfl, ?_, hdup2, rfl, rfl⟩
  rw [storeHas_cons]
  simp

/-- Witness for C2: the fault-injection envelope fails its first delivery
but leaves its record behind; the redelivery is silently acked. -/
theorem C2_witness :
    (handler cfgOk 1000 (fun _ => true) [] [recOf "m2" failDetail]).failures = ["m2"] ∧
    (handler cfgOk 2000 (fun _ => true)
        (handler cfgOk 1000 (fun _ => true) [] [recOf "m2" failDetail]).store
        [recOf "m2" failDetail]).failures = [] ∧
    (handler cfgOk 2000 (fun _ => true)
        (handler cfgOk 1000 (fun _ => true) [] [recOf "m2" failDetail]).store
        [recOf "m2" failDetail]).businessCalls = [] := by
  have h := C2_claim_then_execute cfgOk 1000 2000 [] (recOf "m2" failDetail)
    (envOf failDetail) failDetail "e2" "o2" "2024-01-01T00:00:00Z" ProcessError.failSku
    rfl rfl rfl rfl rfl rfl rfl rfl
  exact ⟨h.1, h.2.2.2.1, h.2.2.2.2⟩

lemma processRecord_parts (cfg : WorkerConfig) (now : Nat) (a : Bool)
    (st : BatchState) (r : SQSRecord) :
    (processRecord cfg now a st r).store = (classifyRecord cfg now a st.store r).2 ∧
    (processRecord cfg now a st r).failures = st.failures ++
      (if (classifyRecord cfg now a st.store r).1 = Outcome.failed
        then [r.messageId] else []) := by
  unfold processRecord classifyRecord
  cases hp : parseEventBridgeEnvelope r with
  | error pe => simp
  | ok env =>
    cases hd : env.detail with
    | none => simp [hd]
    | some d =>
      cases hri : recordIdempotency cfg now a st.store d with
      | error we => simp [hd, hri]
      | ok p =>
        obtain ⟨cs, s⟩ := p
        cases cs with
        | duplicate => simp [hd, hri]
        | new =>
          cases hpo : processOrder d with
          | ok u => simp [hd, hri, hpo]
          | error pe => simp [hd, hri, hpo]

lemma handlerGo_failures (cfg : WorkerConfig) (now : Nat) (avail : Nat → Bool) :
    ∀ (rs : List SQSRecord) (i : Nat) (st : BatchState),
    (handlerGo cfg now avail i st rs).failures =
      st.failures ++ failedIds (classifyBatch cfg now avail i st.store rs) := by
  intro rs
  induction rs with
  | nil =>
    intro i st
    simp [handlerGo, classifyBatch, failedIds]
  | cons r rs ih =>
    intro i st
    simp only [handlerGo, classifyBatch]
    rw [ih]
    have hparts := processRecord_parts cfg now (avail i) st r
    rw [hparts.1, hparts.2]
    by_cases hcf : (classifyRecord cfg now (avail i) st.store r).1 = Outcome.failed
    · simp [failedIds, List.filterMap_cons, hcf]
    · simp [failedIds, List.filterMap_cons, hcf]

/-- C3: the handler's `batchItemFailures` contains exactly the identifiers
of the envelopes whose per-record processing (against the table state at
its point in the batch) ends in failure — parse failure, store error, or
business-processing failure — and no others; successes and duplicates are
absent (implicitly acknowledged), and per-envelope failures are isolated:
in particular a batch of one malformed and one valid-success envelope
reports exactly the malformed one. -/
theorem C3_batch_failures_exact (cfg : WorkerConfig) (now : Nat)
    (avail : Nat → Bool) (store : Store) (records : List SQSRecord) :
    (handler cfg now avail store records).failures =
      failedIds (classifyBatch cfg now avail 0 store records) ∧
    (handler cfgOk 1000 (fun _ => true) []
      [⟨"mBad", Body.invalidJson⟩, recOf "mGood" goodDetail]).failures = ["mBad"] := by
  constructor
  · rw [handler, handlerGo_failures]
    simp
  · rfl

lemma forwardLoop_parts (sendOk : Nat → Bool) :
    ∀ (ms : List Message) (i : Nat) (st : ForwardState),
    (forwardLoop sendOk i st ms).toDelete = st.toDelete ++ forwardedFrom sendOk i ms ∧
    (forwardLoop sendOk i st ms).processedCount =
      st.processedCount + (forwardedFrom sendOk i ms).length ∧
    (forwardLoop sendOk i st ms).sent =
      st.sent ++ (forwardedFrom sendOk i ms).map (fun m => m.body.getD "") := by
  intro ms
  induction ms with
  | nil =>
    intro i st
    simp [forwardLoop, forwardedFrom]
  | cons m ms ih =>
    intro i st
    cases hcm : msgComplete m with
    | false =>
      simp only [forwardLoop, forwardedFrom, hcm]
      simpa using ih (i + 1) st
    | true =>
      cases hs : sendOk i with
      | false =>
        simp only [forwardLoop, forwardedFrom, hcm, hs]
        simpa using ih (i + 1) st
      | true =>
        simp only [forwardLoop, forwardedFrom, hcm, hs]
        have h := ih (i + 1)
          ⟨st.processedCount + 1, st.sent ++ [m.body.getD ""], st.toDelete ++ [m]⟩
        refine ⟨?_, ?_, ?_⟩
        · simp [h.1]
        · have h21 := h.2.1
          simp only [] at h21
          simp [h21]
          omega
        · simp [h.2.2]

lemma replayOnce_parts (sendOk deleteOk : Nat → Bool) (dlq received : List Message) :
    (replayOnce sendOk deleteOk dlq received).toDelete =
      forwardedFrom sendOk 0 received ∧
    (replayOnce sendOk deleteOk dlq received).processedCount =
      (forwardedFrom sendOk 0 received).length ∧
    (replayOnce sendOk deleteOk dlq received).sent =
      (forwardedFrom sendOk 0 received).map (fun m => m.body.getD "") := by
  have h := forwardLoop_parts sendOk received 0 ⟨0, [], []⟩
  unfold replayOnce
  by_cases hr : received.length = 0
  · rw [List.length_eq_zero] at hr
    subst hr
    simp [forwardedFrom]
  · simp only [hr, if_false, if_neg]
    split <;> simp [h.1, h.2.1, h.2.2]

lemma replayOnce_dlqAfter (sendOk deleteOk : Nat → Bool) (dlq received : List Message) :
    (replayOnce sendOk deleteOk dlq received).dlqAfter =
      dlq.filter (fun m =>
        !((okDeleteIds deleteOk 0
            (replayOnce sendOk deleteOk dlq received).toDelete).contains m.messageId)) := by
  unfold replayOnce
  by_cases hr : received.length = 0
  · simp [hr, okDeleteIds]
  · simp only [hr, if_false, if_neg]
    split
    next h =>
      simp
    next h =>
      have ht : (forwardLoop sendOk 0 ⟨0, [], []⟩ received).toDelete = [] := by
        rcases Nat.eq_zero_or_pos (forwardLoop sendOk 0 ⟨0, [], []⟩ received).toDelete.length
          with h0 | h0
        · exact List.length_eq_zero.mp h0
        · exact absurd h0 (by simpa using h)
      simp [ht, okDeleteIds]

lemma replayOnce_warned (sendOk deleteOk : Nat → Bool) (dlq received : List Message) :
    (replayOnce sendOk deleteOk dlq received).warned =
      (failedDeleteCount deleteOk 0
        (replayOnce sendOk deleteOk dlq received).toDelete != 0) := by
  unfold replayOnce
  by_cases hr : received.length = 0
  · simp [hr, failedDeleteCount]
  · simp only [hr, if_false, if_neg]
    split
    next h =>
      simp
    next h =>
      have ht : (forwardLoop sendOk 0 ⟨0, [], []⟩ received).toDelete = [] := by
        rcases Nat.eq_zero_or_pos (forwardLoop sendOk 0 ⟨0, [], []⟩ received).toDelete.length
          with h0 | h0
        · exact List.length_eq_zero.mp h0
        · exact absurd h0 (by simpa using h)
      simp [ht, failedDeleteCount]

lemma mem_forwardedFrom (sendOk : Nat → Bool) :
    ∀ (ms : List Message) (i : Nat) (m : Message), m ∈ forwardedFrom sendOk i ms →
      msgComplete m = true ∧ ∃ j, ms[j]? = some m ∧ sendOk (i + j) = true := by
  intro ms
  induction ms with
  | nil =>
    intro i m h
    simp [forwardedFrom] at h
  | cons x ms ih =>
    intro i m h
    simp only [forwardedFrom] at h
    by_cases hc : (msgComplete x && sendOk i) = true
    · rw [if_pos hc] at h
      rw [Bool.and_eq_true] at hc
      rcases List.mem_cons.mp h with rfl | hmem
      · exact ⟨hc.1, 0, by simp, by simpa using hc.2⟩
      · obtain ⟨h1, j, hj, hsj⟩ := ih (i + 1) m hmem
        refine ⟨h1, j + 1, by simpa using hj, ?_⟩
        rwa [show i + (j + 1) = i + 1 + j by omega]
    · rw [if_neg hc] at h
      obtain ⟨h1, j, hj, hsj⟩ := ih (i + 1) m h
      refine ⟨h1, j + 1, by simpa using hj, ?_⟩
      rwa [show i + (j + 1) = i + 1 + j by omega]

lemma mem_okDeleteIds (deleteOk : Nat → Bool) :
    ∀ (l : List Message) (j0 : Nat) (x : Option String),
    x ∈ okDeleteIds deleteOk j0 l → ∃ mm ∈ l, mm.messageId = x := by
  intro l
  induction l with
  | nil =>
    intro j0 x h
    simp [okDeleteIds] at h
  | cons m ms ih =>
    intro j0 x h
    simp only [okDeleteIds] at h
    by_cases hd : deleteOk j0 = true
    · rw [if_pos hd] at h
      rcases List.mem_cons.mp h with rfl | hmem
      · exact ⟨m, List.mem_cons_self m ms, rfl⟩
      · obtain ⟨mm, hmm, hx⟩ := ih (j0 + 1) x hmem
        exact ⟨mm, List.mem_cons_of_mem m hmm, hx⟩
    · rw [if_neg hd] at h
      obtain ⟨mm, hmm, hx⟩ := ih (j0 + 1) x h
      exact ⟨mm, List.mem_cons_of_mem m hmm, hx⟩

lemma forwardedFrom_nil_iff (sendOk : Nat → Bool) :
    ∀ (ms : List Message) (i : Nat),
    forwardedFrom sendOk i ms = [] ↔ noneForwardable sendOk i ms = true := by
  intro ms
  induction ms with
  | nil =>
    intro i
    simp [forwardedFrom, noneForwardable]
  | cons m ms ih =>
    intro i
    cases hcm : msgComplete m <;> cases hs : sendOk i <;>
      simp [forwardedFrom, noneForwardable, hcm, hs, ih]

lemma noneForwardable_of_all_incomplete (sendOk : Nat → Bool) :
    ∀ (ms : List Message) (i : Nat),
    ms.all (fun m => !(msgComplete m)) = true → noneForwardable sendOk i ms = true := by
  intro ms
  induction ms with
  | nil =>
    intro i _
    rfl
  | cons m ms ih =>
    intro i hall
    rw [List.all_cons, Bool.and_eq_true] at hall
    simp only [noneForwardable]
    rw [Bool.and_eq_true]
    exact ⟨by simp [hall.1], ih (i + 1) hall.2⟩

lemma drainLoop_isSome (iter : Nat → Nat) :
    ∀ (fuel i total : Nat), (drainLoop iter fuel i total).isSome = true ↔
      ∃ k, k < fuel ∧ iter (i + k) = 0 := by
  intro fuel
  induction fuel with
  | zero =>
    intro i total
    simp [drainLoop]
  | succ fuel ih =>
    intro i total
    simp only [drainLoop]
    by_cases h0 : iter i = 0
    · simp only [h0, if_pos, reduceIte, Option.isSome_some]
      constructor
      · intro _
        exact ⟨0, by omega, by simpa using h0⟩
      · intro _
        trivial
    · rw [if_neg h0, ih]
      constructor
      · rintro ⟨k, hk, hit⟩
        exact ⟨k + 1, by omega, by rwa [show i + (k + 1) = i + 1 + k by omega]⟩
      · rintro ⟨k, hk, hit⟩
        cases k with
        | zero => exact absurd (by simpa using hit) h0
        | succ k =>
          exact ⟨k, by omega, by rwa [show i + 1 + k = i + (k + 1) by omega]⟩

/-- C7: within each received DLQ batch, the messages queued for batch-delete
are exactly the complete messages whose forward to the main queue
succeeded, in order; a message whose forward failed stays in the DLQ
untouched; a message can only disappear from the DLQ if some batch-delete
entry — hence some successfully forwarded message — carries its
`MessageId`; and the duplicate-risk warning is printed exactly when the
single batch-delete reports failed entries (no retry is attempted). -/
theorem C7_delete_only_after_forward (sendOk deleteOk : Nat → Bool)
    (dlq received : List Message) (i : Nat) (m : Message)
    (_hi : received[i]? = some m)
    (_hC : msgComplete m = true)
    (hF : sendOk i = false)
    (hUniq : ∀ (j : Nat) (mj : Message), received[j]? = some mj →
      mj.messageId = m.messageId → j = i)
    (hdlq : m ∈ dlq) :
    (replayOnce sendOk deleteOk dlq received).toDelete =
      forwardedFrom sendOk 0 received ∧
    m ∈ (replayOnce sendOk deleteOk dlq received).dlqAfter ∧
    (∀ m2 ∈ dlq, m2 ∉ (replayOnce sendOk deleteOk dlq received).dlqAfter →
      ∃ mm ∈ (replayOnce sendOk deleteOk dlq received).toDelete,
        mm.messageId = m2.messageId) ∧
    ((replayOnce sendOk deleteOk dlq received).warned = true ↔
      failedDeleteCount deleteOk 0
        (replayOnce sendOk deleteOk dlq received).toDelete ≠ 0) := by
  have htd := (replayOnce_parts sendOk deleteOk dlq received).1
  have hda := replayOnce_dlqAfter sendOk deleteOk dlq received
  have hwa := replayOnce_warned sendOk deleteOk dlq received
  refine ⟨htd, ?_, ?_, ?_⟩
  · rw [hda, List.mem_filter]
    refine ⟨hdlq, ?_⟩
    rw [Bool.not_eq_true']
    rw [htd]
    by_contra hcon
    rw [Bool.not_eq_false] at hcon
    have hmem : m.messageId ∈
        okDeleteIds deleteOk 0 (forwardedFrom sendOk 0 received) := by
      simpa using hcon
    obtain ⟨mm, hmm, hx⟩ := mem_okDeleteIds deleteOk _ 0 _ hmem
    obtain ⟨hcm2, j, hj, hsj⟩ := mem_forwardedFrom sendOk received 0 mm hmm
    rw [Nat.zero_add, hUniq j mm hj hx, hF] at hsj
    simp at hsj
  · intro m2 hm2 hnot
    rw [hda, List.mem_filter] at hnot
    have hcon : (okDeleteIds deleteOk 0
        (replayOnce sendOk deleteOk dlq received).toDelete).contains m2.messageId
        = true := by
      by_contra hc
      rw [Bool.not_eq_true] at hc
      simp at hc
      exact hnot ⟨hm2, by simp [hc]⟩
    have hmem : m2.messageId ∈ okDeleteIds deleteOk 0
        (replayOnce sendOk deleteOk dlq received).toDelete := by
      simpa using hcon
    obtain ⟨mm, hmm, hx⟩ := mem_okDeleteIds deleteOk _ 0 _ hmem
    exact ⟨mm, hmm, hx⟩
  · rw [hwa]
    simp

/-- Witness for C7: two complete messages; the first forwards, the second's
forward fails; the second remains in the DLQ and the delete set is exactly
the forwarded first message. -/
theorem C7_witness :
    (replayOnce (fun i => i == 0) (fun _ => true)
        [dlqMsgA, dlqMsgB] [dlqMsgA, dlqMsgB]).toDelete =
      forwardedFrom (fun i => i == 0) 0 [dlqMsgA, dlqMsgB] ∧
    dlqMsgB ∈ (replayOnce (fun i => i == 0) (fun _ => true)
        [dlqMsgA, dlqMsgB] [dlqMsgA, dlqMsgB]).dlqAfter := by
  have hUniq : ∀ (j : Nat) (mj : Message),
      ([dlqMsgA, dlqMsgB] : List Message)[j]? = some mj →
      mj.messageId = dlqMsgB.messageId → j = 1 := by
    intro j mj hj hid
    match j with
    | 0 =>
      have hm : mj = dlqMsgA := by simpa using hj.symm
      rw [hm] at hid
      exact absurd hid (by decide)
    | 1 => rfl
    | j + 2 => simp at hj
  have h := C7_delete_only_after_forward (fun i => i == 0) (fun _ => true)
    [dlqMsgA, dlqMsgB] [dlqMsgA, dlqMsgB] 1 dlqMsgB
    (by decide) (by decide) (by decide) hUniq (by decide)
  exact ⟨h.1, h.2.1⟩

/-- C8, counterexample: a receive that returns one message (which lacks a
`Body` and is skipped) makes `replayOnce` return 0, so the drain loop
breaks even though the receive was non-empty — refuting "the loop exits
exactly when a receive comes back empty". -/
theorem C8_counterexample_nonempty_receive_exits :
    (replayOnce (fun _ => true) (fun _ => true)
        [noBodyMsg] [noBodyMsg]).processedCount = 0 ∧
    ([noBodyMsg] : List Message).length = 1 ∧
    loopBreaks (replayOnce (fun _ => true) (fun _ => true)
        [noBodyMsg] [noBodyMsg]).processedCount = true :=
  ⟨rfl, rfl, rfl⟩

/-- C8, amended: the drain loop exits exactly when an iteration replays
zero messages, which happens when the receive is empty OR when every
received message is either skipped (missing Body/ReceiptHandle/MessageId)
or fails to forward; with explicit fuel, the loop returns within the fuel
iff some iteration within it replays zero. -/
theorem C8_loop_exit_characterization (sendOk deleteOk : Nat → Bool)
    (dlq received : List Message) (iter : Nat → Nat) (fuel i total : Nat) :
    ((replayOnce sendOk deleteOk dlq received).processedCount = 0 ↔
      noneForwardable sendOk 0 received = true) ∧
    (loopBreaks (replayOnce sendOk deleteOk dlq received).processedCount = true ↔
      noneForwardable sendOk 0 received = true) ∧
    ((drainLoop iter fuel i total).isSome = true ↔
      ∃ k, k < fuel ∧ iter (i + k) = 0) := by
  have hc := (replayOnce_parts sendOk deleteOk dlq received).2.1
  have h1 : (replayOnce sendOk deleteOk dlq received).processedCount = 0 ↔
      noneForwardable sendOk 0 received = true := by
    rw [hc, List.length_eq_zero, forwardedFrom_nil_iff]
  refine ⟨h1, ?_, drainLoop_isSome iter fuel i total⟩
  rw [← h1]
  simp only [loopBreaks, beq_iff_eq]

/-- Witness for C8's loop characterization: a run whose third iteration
replays zero terminates within fuel 10. -/
theorem C8_witness :
    (drainLoop (fun i => if i < 2 then 3 else 0) 10 0 0).isSome = true := by
  have h := C8_loop_exit_characterization (fun _ => true) (fun _ => true) [] []
    (fun i => if i < 2 then 3 else 0) 10 0 0
  exact h.2.2.mpr ⟨2, by omega, by simp⟩

/-- C10: a received DLQ message lacking a Body, ReceiptHandle, or MessageId
is skipped entirely — never queued for deletion, never counted (the
replayed count equals the number of forwarded-and-queued messages, and the
sent bodies are exactly theirs); a non-empty batch of only such messages
yields a replayed count of zero, deletes nothing, leaves the DLQ unchanged,
and makes the drain loop break. -/
theorem C10_skip_incomplete (sendOk deleteOk : Nat → Bool)
    (dlq received : List Message) :
    (∀ m ∈ received, msgComplete m = false →
      m ∉ (replayOnce sendOk deleteOk dlq received).toDelete) ∧
    (replayOnce sendOk deleteOk dlq received).processedCount =
      (replayOnce sendOk deleteOk dlq received).toDelete.length ∧
    (replayOnce sendOk deleteOk dlq received).sent =
      (replayOnce sendOk deleteOk dlq received).toDelete.map
        (fun mm => mm.body.getD "") ∧
    (received ≠ [] → received.all (fun m => !(msgComplete m)) = true →
      (replayOnce sendOk deleteOk dlq received).processedCount = 0 ∧
      (replayOnce sendOk deleteOk dlq received).toDelete = [] ∧
      (replayOnce sendOk deleteOk dlq received).dlqAfter = dlq ∧
      loopBreaks (replayOnce sendOk deleteOk dlq received).processedCount
        = true) := by
  obtain ⟨htd, hcnt, hsent⟩ := replayOnce_parts sendOk deleteOk dlq received
  refine ⟨?_, by rw [hcnt, htd], by rw [hsent, htd], ?_⟩
  · intro m hm hbad hmem
    rw [htd] at hmem
    have hcm := (mem_forwardedFrom sendOk received 0 m hmem).1
    rw [hbad] at hcm
    cases hcm
  · intro hne hall
    have hnf : noneForwardable sendOk 0 received = true :=
      noneForwardable_of_all_incomplete sendOk received 0 hall
    have hff : forwardedFrom sendOk 0 received = [] :=
      (forwardedFrom_nil_iff sendOk received 0).mpr hnf
    refine ⟨by rw [hcnt, hff]; rfl, by rw [htd, hff], ?_, ?_⟩
    · rw [replayOnce_dlqAfter, htd, hff]
      simp [okDeleteIds]
    · simp only [loopBreaks, beq_iff_eq]
      rw [hcnt, hff]
      rfl

/-- Witness for C10: a batch of one Body-less message replays nothing and
leaves the DLQ as it was. -/
theorem C10_witness :
    (replayOnce (fun _ => true) (fun _ => true)
        [noBodyMsg] [noBodyMsg]).processedCount = 0 ∧
    (replayOnce (fun _ => true) (fun _ => true)
        [noBodyMsg] [noBodyMsg]).toDelete = [] ∧
    (replayOnce (fun _ => true) (fun _ => true)
        [noBodyMsg] [noBodyMsg]).dlqAfter = [noBodyMsg] ∧
    loopBreaks (replayOnce (fun _ => true) (fun _ => true)
        [noBodyMsg] [noBodyMsg]).processedCount = true := by
  have h := C10_skip_incomplete (fun _ => true) (fun _ => true)
    [noBodyMsg] [noBodyMsg]
  exact h.2.2.2 (by decide) (by decide)
